import Mathlib

/-!
Shallow embedding of the element-level Jacobian calculation core
(`src/ibtk/src/lagrangian/JacobianCalculator.cpp`).

Modelling conventions:
- `double` arithmetic is modelled exactly: the specialised kernels (Tri3,
  Quad4, Quad9, Tet4) use `ℚ`, the generic Lagrange path uses `ℝ` because
  it takes a square root on the manifold branch.
- A fatal error (`TBOX_ERROR` / failed `TBOX_ASSERT`) is modelled as the
  call returning `none`; a successful call returns `some` of the contents
  of the `d_JxW` buffer it hands back.
- `std::copy(src.begin(), src.end(), dst.begin())` is `listOverwrite`; the
  construction invariant `d_JxW.size() == d_quad_weights.size()` appears as
  an explicit hypothesis where a theorem needs it.
- An element is its type tag together with its `point(i)` accessor.
-/

/-- The element-type tags the core dispatches on (subset of libMesh's
`ElemType` used here). -/
inductive ElemType
  | edge2 | edge3 | tri3 | tri6 | quad4 | quad8 | quad9 | tet4 | tet10 | hex8 | hex27
  deriving DecidableEq

/-- `std::copy(src.begin(), src.end(), dst.begin())`: the first
`src.length` entries of `dst` are overwritten with `src`, the tail of
`dst` is kept.  (The C++ call requires `src.length ≤ dst.length`; under
the construction invariant the two lengths are equal.) -/
def listOverwrite {α : Type} (dst src : List α) : List α :=
  src ++ dst.drop src.length

/-- A 2-D element: its `type()` and its `point(i)` accessor, giving the
`x` and `y` coordinates. -/
structure Element2 where
  etype : ElemType
  pts : ℕ → ℚ × ℚ

/-- A 3-D element: its `type()` and its `point(i)` accessor, giving the
`x`, `y`, `z` coordinates. -/
structure Element3 where
  etype : ElemType
  pts : ℕ → ℚ × ℚ × ℚ

/-! ## Tri3JacobianCalculator -/

/-- State of a `Tri3JacobianCalculator`: the element type stored in the
quadrature key, the reference weights, and the `d_JxW` scratch buffer. -/
structure Tri3Calc where
  keyType : ElemType
  quad_weights : List ℚ
  d_JxW : List ℚ

/-- The constant Jacobian computed by `Tri3JacobianCalculator::get_JxW`:
`Jac_00 * Jac_11 - Jac_01 * Jac_10` with `Jac_00 = p1(0) - p0(0)`,
`Jac_01 = p2(0) - p0(0)`, `Jac_10 = p1(1) - p0(1)`, `Jac_11 = p2(1) - p0(1)`. -/
def tri3J (e : Element2) : ℚ :=
  ((e.pts 1).1 - (e.pts 0).1) * ((e.pts 2).2 - (e.pts 0).2) -
    ((e.pts 2).1 - (e.pts 0).1) * ((e.pts 1).2 - (e.pts 0).2)

/-- Body of `Tri3JacobianCalculator::get_JxW` after the element-type
check: copy the weights into the buffer, compute the single `J`, assert
`J > 0`, multiply every buffer entry by `J`. -/
def Tri3Calc.core (c : Tri3Calc) (e : Element2) : Option (List ℚ) :=
  if 0 < tri3J e then
    some ((listOverwrite c.d_JxW c.quad_weights).map (fun w => w * tri3J e))
  else none

/-- `Tri3JacobianCalculator::get_JxW`: the `TBOX_ASSERT(elem->type() ==
std::get<0>(d_quad_key))` check followed by the body. -/
def Tri3Calc.get_JxW (c : Tri3Calc) (e : Element2) : Option (List ℚ) :=
  if e.etype = c.keyType then c.core e else none

/-! ## Quad4JacobianCalculator -/

/-- State of a `Quad4JacobianCalculator`: key element type, reference
quadrature points and weights, and the `d_JxW` buffer. -/
structure Quad4Calc where
  keyType : ElemType
  quad_points : List (ℚ × ℚ)
  quad_weights : List ℚ
  d_JxW : List ℚ

/-- The pointwise Jacobian computed by `Quad4JacobianCalculator::get_JxW`
at reference point `p = (ξ, η)`, via the six per-call coefficients
`a_1, b_1, c_1` (from the `x` node coordinates) and `a_2, b_2, c_2`
(from the `y` node coordinates). -/
def quad4J (e : Element2) (p : ℚ × ℚ) : ℚ :=
  let a1 := (1/4 : ℚ) * (-(e.pts 0).1 + (e.pts 1).1 + (e.pts 2).1 - (e.pts 3).1)
  let b1 := (1/4 : ℚ) * (-(e.pts 0).1 - (e.pts 1).1 + (e.pts 2).1 + (e.pts 3).1)
  let c1 := (1/4 : ℚ) * ((e.pts 0).1 - (e.pts 1).1 + (e.pts 2).1 - (e.pts 3).1)
  let a2 := (1/4 : ℚ) * (-(e.pts 0).2 + (e.pts 1).2 + (e.pts 2).2 - (e.pts 3).2)
  let b2 := (1/4 : ℚ) * (-(e.pts 0).2 - (e.pts 1).2 + (e.pts 2).2 + (e.pts 3).2)
  let c2 := (1/4 : ℚ) * ((e.pts 0).2 - (e.pts 1).2 + (e.pts 2).2 - (e.pts 3).2)
  (a1 + c1 * p.2) * (b2 + c2 * p.1) - (b1 + c1 * p.1) * (a2 + c2 * p.2)

/-- Body of `Quad4JacobianCalculator::get_JxW` after the element-type
check: copy the weights, then for each buffer index `i` read the
reference point, compute `J`, assert `J > 0`, and multiply. -/
def Quad4Calc.core (c : Quad4Calc) (e : Element2) : Option (List ℚ) :=
  let buf := listOverwrite c.d_JxW c.quad_weights
  if ∀ i < buf.length, 0 < quad4J e (c.quad_points.getD i (0, 0)) then
    some ((List.range buf.length).map fun i =>
      buf.getD i 0 * quad4J e (c.quad_points.getD i (0, 0)))
  else none

/-- `Quad4JacobianCalculator::get_JxW`: element-type check, then body. -/
def Quad4Calc.get_JxW (c : Quad4Calc) (e : Element2) : Option (List ℚ) :=
  if e.etype = c.keyType then c.core e else none

/-! ## Quad9JacobianCalculator -/

/-- State of a `Quad9JacobianCalculator`: key element type, the 2-D rule,
the `d_JxW` buffer, the reconstructed 1-D rule size `d_n_oned_q_points`,
and the 1-D shape value/derivative tables `d_phi`, `d_dphi`
(first index: 1-D shape function in left-to-right order, second index:
1-D quadrature point). -/
structure Quad9Calc where
  keyType : ElemType
  quad_points : List (ℚ × ℚ)
  quad_weights : List ℚ
  d_JxW : List ℚ
  d_n_oned_q_points : ℕ
  d_phi : ℕ → ℕ → ℚ
  d_dphi : ℕ → ℕ → ℚ

/-- The tensor-product checks of the `Quad9JacobianCalculator`
constructor: `d_n_oned_q_points² = Q` (the constructor computes
`d_n_oned_q_points` as `round(√Q)`, which for the exact arithmetic
modelled here has a square equal to `Q` exactly when `Nat.sqrt Q` does),
and point `q = j·Q₁ + i` equals `(p_i, p_j)` where `p_i` is the `x`
coordinate of point `i` of the 2-D rule. -/
def quad9TensorOK (pts : List (ℚ × ℚ)) : Prop :=
  Nat.sqrt pts.length * Nat.sqrt pts.length = pts.length ∧
    ∀ j < Nat.sqrt pts.length, ∀ i < Nat.sqrt pts.length,
      pts.getD (j * Nat.sqrt pts.length + i) (0, 0) =
        ((pts.getD i (0, 0)).1, (pts.getD j (0, 0)).1)

instance (pts : List (ℚ × ℚ)) : Decidable (quad9TensorOK pts) := by
  unfold quad9TensorOK; infer_instance

/-- The `Quad9JacobianCalculator` constructor.  `shape a x` and
`shape_deriv a x` are the 1-D quadratic Lagrange shape functions of the
reference library (`FE<1, LAGRANGE>::shape(EDGE3, SECOND, ·, ·)`), already
reindexed by the constructor's left-to-right reordering `{0, 2, 1}`.  The
constructor asserts the tensor-product structure of the rule and fills the
1-D tables at the reconstructed 1-D points; a rule failing either
assertion is fatally rejected (`none`). -/
def quad9Construct (keyType : ElemType) (pts : List (ℚ × ℚ)) (ws : List ℚ)
    (shape shape_deriv : ℕ → ℚ → ℚ) : Option Quad9Calc :=
  if quad9TensorOK pts then
    some { keyType := keyType
           quad_points := pts
           quad_weights := ws
           d_JxW := List.replicate ws.length 0
           d_n_oned_q_points := Nat.sqrt pts.length
           d_phi := fun a i => shape a ((pts.getD i (0, 0)).1)
           d_dphi := fun a i => shape_deriv a ((pts.getD i (0, 0)).1) }
  else none

/-- The remapping of the nine Quad9 nodes onto the logical 3×3 grid used
by `Quad9JacobianCalculator::get_JxW` (`points[i][j] = elem->point(·)`). -/
def quad9NodeIndex (i j : ℕ) : ℕ :=
  match i, j with
  | 0, 0 => 0 | 0, 1 => 4 | 0, 2 => 1
  | 1, 0 => 7 | 1, 1 => 8 | 1, 2 => 5
  | 2, 0 => 3 | 2, 1 => 6 | 2, 2 => 2
  | _, _ => 0

/-- The 2×2 Jacobian determinant accumulated by
`Quad9JacobianCalculator::get_JxW` at quadrature index `q`, using the
tensor-product index split `q_point_x = q % Q₁`, `q_point_y = q / Q₁`. -/
def quad9Jac (c : Quad9Calc) (e : Element2) (q : ℕ) : ℚ :=
  let qx := q % c.d_n_oned_q_points
  let qy := q / c.d_n_oned_q_points
  let xs : ℕ → ℕ → ℚ := fun i j => (e.pts (quad9NodeIndex i j)).1
  let ys : ℕ → ℕ → ℚ := fun i j => (e.pts (quad9NodeIndex i j)).2
  let J00 := ∑ i ∈ Finset.range 3, ∑ j ∈ Finset.range 3, xs i j * c.d_dphi j qx * c.d_phi i qy
  let J01 := ∑ i ∈ Finset.range 3, ∑ j ∈ Finset.range 3, xs i j * c.d_phi j qx * c.d_dphi i qy
  let J10 := ∑ i ∈ Finset.range 3, ∑ j ∈ Finset.range 3, ys i j * c.d_dphi j qx * c.d_phi i qy
  let J11 := ∑ i ∈ Finset.range 3, ∑ j ∈ Finset.range 3, ys i j * c.d_phi j qx * c.d_dphi i qy
  J00 * J11 - J01 * J10

/-- Body of `Quad9JacobianCalculator::get_JxW` after the element-type
check: copy the weights, then for each buffer index `q` accumulate the
2×2 Jacobian, assert `J > 0`, and multiply. -/
def Quad9Calc.core (c : Quad9Calc) (e : Element2) : Option (List ℚ) :=
  let buf := listOverwrite c.d_JxW c.quad_weights
  if ∀ q < buf.length, 0 < quad9Jac c e q then
    some ((List.range buf.length).map fun q => buf.getD q 0 * quad9Jac c e q)
  else none

/-- `Quad9JacobianCalculator::get_JxW`: element-type check, then body. -/
def Quad9Calc.get_JxW (c : Quad9Calc) (e : Element2) : Option (List ℚ) :=
  if e.etype = c.keyType then c.core e else none

/-- The statefulness of `Quad9JacobianCalculator::get_JxW`: the returned
reference is the calculator's own `d_JxW` buffer, so a successful call
both returns the sequence and leaves it stored in the calculator. -/
def Quad9Calc.step (c : Quad9Calc) (e : Element2) : Option (List ℚ × Quad9Calc) :=
  (c.get_JxW e).map fun l => (l, { c with d_JxW := l })

/-! ## Tet4JacobianCalculator -/

/-- State of a `Tet4JacobianCalculator`. -/
structure Tet4Calc where
  keyType : ElemType
  quad_weights : List ℚ
  d_JxW : List ℚ

/-- The constant Jacobian computed by `Tet4JacobianCalculator::get_JxW`:
the 3×3 determinant of the edge matrix `[p1-p0 | p2-p0 | p3-p0]` by
cofactor expansion, exactly as written in the source. -/
def tet4J (e : Element3) : ℚ :=
  let J00 := (e.pts 1).1 - (e.pts 0).1
  let J01 := (e.pts 2).1 - (e.pts 0).1
  let J02 := (e.pts 3).1 - (e.pts 0).1
  let J10 := (e.pts 1).2.1 - (e.pts 0).2.1
  let J11 := (e.pts 2).2.1 - (e.pts 0).2.1
  let J12 := (e.pts 3).2.1 - (e.pts 0).2.1
  let J20 := (e.pts 1).2.2 - (e.pts 0).2.2
  let J21 := (e.pts 2).2.2 - (e.pts 0).2.2
  let J22 := (e.pts 3).2.2 - (e.pts 0).2.2
  J00 * (J11 * J22 - J12 * J21) - J10 * (J01 * J22 - J02 * J21) +
    J20 * (J01 * J12 - J02 * J11)

/-- Body of `Tet4JacobianCalculator::get_JxW` after the element-type
check. -/
def Tet4Calc.core (c : Tet4Calc) (e : Element3) : Option (List ℚ) :=
  if 0 < tet4J e then
    some ((listOverwrite c.d_JxW c.quad_weights).map (fun w => w * tet4J e))
  else none

/-- `Tet4JacobianCalculator::get_JxW`: element-type check, then body. -/
def Tet4Calc.get_JxW (c : Tet4Calc) (e : Element3) : Option (List ℚ) :=
  if e.etype = c.keyType then c.core e else none

/-! ## The generic LagrangeJacobianCalculator

The generic path takes a square root on the manifold branch, so it is
modelled over `ℝ`.  The template parameters `dim` and `spacedim` become
fields of the state. -/

/-- An element as seen by the generic path: its `type()` and its
`point(n)(i)` accessor (node index, coordinate axis). -/
structure ElementR where
  etype : ElemType
  pts : ℕ → ℕ → ℝ

/-- The `determinant` helper of the anonymous namespace: explicit
cofactor expansions are specialised for 1×1, 2×2 and 3×3 matrices; every
other size hits the unspecialised fallback, which unconditionally fails
(`TBOX_ASSERT(false)`), modelled as `none`. -/
def determinant (n : ℕ) (A : ℕ → ℕ → ℝ) : Option ℝ :=
  match n with
  | 1 => some (A 0 0)
  | 2 => some (A 0 0 * A 1 1 - A 0 1 * A 1 0)
  | 3 => some (A 0 0 * (A 1 1 * A 2 2 - A 1 2 * A 2 1) -
               A 1 0 * (A 0 1 * A 2 2 - A 0 2 * A 2 1) +
               A 2 0 * (A 0 1 * A 1 2 - A 0 2 * A 1 1))
  | _ => none

/-- The six `(dim, spacedim)` pairs at which
`LagrangeJacobianCalculator` is explicitly instantiated. -/
def lagrangeInstantiations : List (ℕ × ℕ) :=
  [(1, 1), (1, 2), (1, 3), (2, 2), (2, 3), (3, 3)]

/-- State of a `LagrangeJacobianCalculator<dim, spacedim>`: the template
parameters, the key element type, the node count, the stored rule, the
precomputed shape-derivative table `d_dphi` (node, quadrature point,
reference axis), and the `d_JxW` buffer. -/
structure LagrangeCalc where
  dim : ℕ
  spacedim : ℕ
  keyType : ElemType
  d_n_nodes : ℕ
  quad_points : List (ℕ → ℝ)
  quad_weights : List ℝ
  d_dphi : ℕ → ℕ → ℕ → ℝ
  d_JxW : List ℝ

/-- The contravariant map derivative accumulated by the generic
`get_JxW`: `contravariant[i][j] = Σ_n xs[n][i] · d_dphi[n][q][j]`. -/
def contravariant (c : LagrangeCalc) (e : ElementR) (q i j : ℕ) : ℝ :=
  ∑ n ∈ Finset.range c.d_n_nodes, e.pts n i * c.d_dphi n q j

/-- The per-point map determinant of the generic `get_JxW`: when
`dim == spacedim` the determinant of the contravariant matrix; otherwise
the square root of the determinant of the `dim × dim` metric
`Jac[a][b] = Σ_k contravariant[k][a] · contravariant[k][b]`
(`k < spacedim`).  The unspecialised `determinant` fallback propagates as
`none`. -/
noncomputable def lagrangeJ (c : LagrangeCalc) (e : ElementR) (q : ℕ) : Option ℝ :=
  if c.dim = c.spacedim then
    determinant c.dim (fun i j => contravariant c e q i j)
  else
    (determinant c.dim (fun a b =>
      ∑ k ∈ Finset.range c.spacedim, contravariant c e q k a * contravariant c e q k b)).map
      Real.sqrt

open Classical in
/-- Body of the generic `get_JxW` after the element-type check: copy the
weights into the buffer, then for each buffer index `q` compute `J`,
assert that the computation succeeded and that `J > 0`, and multiply. -/
noncomputable def LagrangeCalc.core (c : LagrangeCalc) (e : ElementR) : Option (List ℝ) :=
  let buf := listOverwrite c.d_JxW c.quad_weights
  if ∀ q < buf.length, ∃ J, lagrangeJ c e q = some J ∧ 0 < J then
    some ((List.range buf.length).map fun q => buf.getD q 0 * (lagrangeJ c e q).getD 0)
  else none

/-- `LagrangeJacobianCalculator::get_JxW`: the `TBOX_ASSERT(elem->type()
== std::get<0>(d_quad_key))` check followed by the body. -/
noncomputable def LagrangeCalc.get_JxW (c : LagrangeCalc) (e : ElementR) : Option (List ℝ) :=
  if e.etype = c.keyType then c.core e else none

/-- The statefulness of the generic `get_JxW`: the returned reference is
the calculator's own `d_JxW` buffer. -/
noncomputable def LagrangeCalc.step (c : LagrangeCalc) (e : ElementR) :
    Option (List ℝ × LagrangeCalc) :=
  (c.get_JxW e).map fun l => (l, { c with d_JxW := l })

theorem lagrange_get_JxW_some (c : LagrangeCalc) (e : ElementR) (l : List ℝ) :
    c.get_JxW e = some l ↔
      e.etype = c.keyType ∧
        (∀ q < (listOverwrite c.d_JxW c.quad_weights).length,
          ∃ J, lagrangeJ c e q = some J ∧ 0 < J) ∧
        l = (List.range (listOverwrite c.d_JxW c.quad_weights).length).map fun q =>
          (listOverwrite c.d_JxW c.quad_weights).getD q 0 * (lagrangeJ c e q).getD 0 := by
  simp only [LagrangeCalc.get_JxW, LagrangeCalc.core]
  split_ifs with h1 h2 <;> simp_all [eq_comm]

/-! ## Basic lemmas about the buffer copy -/

theorem listOverwrite_eq_of_length {α : Type} (dst src : List α)
    (h : dst.length = src.length) : listOverwrite dst src = src := by
  unfold listOverwrite
  rw [List.drop_eq_nil_of_le (le_of_eq h), List.append_nil]

theorem listOverwrite_length {α : Type} (dst src : List α)
    (h : dst.length = src.length) : (listOverwrite dst src).length = src.length := by
  rw [listOverwrite_eq_of_length dst src h]

theorem rangeMapGetD {α : Type} (n : ℕ) (f : ℕ → α) (d : α) (q : ℕ) (h : q < n) :
    ((List.range n).map f).getD q d = f q := by
  rw [List.getD_eq_getElem?_getD, List.getElem?_map, List.getElem?_range h]
  rfl

theorem mapGetD {α β : Type} [Inhabited β] (l : List α) (f : α → β) (d : α) (q : ℕ)
    (h : q < l.length) : (l.map f).getD q (f d) = f (l.getD q d) := by
  rw [List.getD_eq_getElem?_getD, List.getElem?_map,
    List.getElem?_eq_getElem h, List.getD_eq_getElem _ _ h]
  rfl

/-! ## Success-condition characterisations of the five `get_JxW` bodies -/

theorem tri3_get_JxW_some (c : Tri3Calc) (e : Element2) (l : List ℚ) :
    c.get_JxW e = some l ↔
      e.etype = c.keyType ∧ 0 < tri3J e ∧
        l = (listOverwrite c.d_JxW c.quad_weights).map (fun w => w * tri3J e) := by
  unfold Tri3Calc.get_JxW Tri3Calc.core
  split_ifs with h1 h2 <;> simp_all [eq_comm]

theorem quad4_get_JxW_some (c : Quad4Calc) (e : Element2) (l : List ℚ) :
    c.get_JxW e = some l ↔
      e.etype = c.keyType ∧
        (∀ i < (listOverwrite c.d_JxW c.quad_weights).length,
          0 < quad4J e (c.quad_points.getD i (0, 0))) ∧
        l = (List.range (listOverwrite c.d_JxW c.quad_weights).length).map fun i =>
          (listOverwrite c.d_JxW c.quad_weights).getD i 0 *
            quad4J e (c.quad_points.getD i (0, 0)) := by
  simp only [Quad4Calc.get_JxW, Quad4Calc.core]
  split_ifs with h1 h2 <;> simp_all [eq_comm]

theorem quad9_get_JxW_some (c : Quad9Calc) (e : Element2) (l : List ℚ) :
    c.get_JxW e = some l ↔
      e.etype = c.keyType ∧
        (∀ q < (listOverwrite c.d_JxW c.quad_weights).length, 0 < quad9Jac c e q) ∧
        l = (List.range (listOverwrite c.d_JxW c.quad_weights).length).map fun q =>
          (listOverwrite c.d_JxW c.quad_weights).getD q 0 * quad9Jac c e q := by
  simp only [Quad9Calc.get_JxW, Quad9Calc.core]
  split_ifs with h1 h2 <;> simp_all [eq_comm]

theorem tet4_get_JxW_some (c : Tet4Calc) (e : Element3) (l : List ℚ) :
    c.get_JxW e = some l ↔
      e.etype = c.keyType ∧ 0 < tet4J e ∧
        l = (listOverwrite c.d_JxW c.quad_weights).map (fun w => w * tet4J e) := by
  unfold Tet4Calc.get_JxW Tet4Calc.core
  split_ifs with h1 h2 <;> simp_all [eq_comm]

/-! ## Claim theorems -/

/-- C2: for every Tri3 element the calculator computes the single
constant `J = (x1-x0)(y2-y0) - (x2-x0)(y1-y0)` from the node
coordinates and returns the reference weights each multiplied by that
one `J`, so `JxW[q] = w_q * J` for every `q`. -/
theorem tri3_jxw_affine (c : Tri3Calc) (e : Element2)
    (hwf : c.d_JxW.length = c.quad_weights.length)
    (ht : e.etype = c.keyType) (hJ : 0 < tri3J e) :
    tri3J e = ((e.pts 1).1 - (e.pts 0).1) * ((e.pts 2).2 - (e.pts 0).2) -
      ((e.pts 2).1 - (e.pts 0).1) * ((e.pts 1).2 - (e.pts 0).2) ∧
    c.get_JxW e = some (c.quad_weights.map fun w => w * tri3J e) := by
  refine ⟨rfl, ?_⟩
  rw [tri3_get_JxW_some]
  exact ⟨ht, hJ, by rw [listOverwrite_eq_of_length _ _ hwf]⟩

/-- Witness for C2: a concrete Tri3 calculator and element
(`p0 = (0,0)`, `p1 = (2,0)`, `p2 = (0,3)`, one weight `1/2`). -/
def tri3CalcW : Tri3Calc :=
  { keyType := ElemType.tri3, quad_weights := [1/2], d_JxW := [0] }

/-- Witness element for the Tri3 claims. -/
def tri3ElemW : Element2 :=
  ⟨ElemType.tri3, fun n => if n = 1 then (2, 0) else if n = 2 then (0, 3) else (0, 0)⟩

theorem tri3_jxw_affine_witness :
    tri3J tri3ElemW =
      ((tri3ElemW.pts 1).1 - (tri3ElemW.pts 0).1) *
          ((tri3ElemW.pts 2).2 - (tri3ElemW.pts 0).2) -
        ((tri3ElemW.pts 2).1 - (tri3ElemW.pts 0).1) *
          ((tri3ElemW.pts 1).2 - (tri3ElemW.pts 0).2) ∧
    tri3CalcW.get_JxW tri3ElemW =
      some (tri3CalcW.quad_weights.map fun w => w * tri3J tri3ElemW) :=
  tri3_jxw_affine tri3CalcW tri3ElemW (by simp [tri3CalcW]) rfl
    (by norm_num [tri3J, tri3ElemW])

/-- C3: for every Quad4 element the calculator evaluates, at each
reference point `(ξ, η)`, the bilinear Jacobian built from the six
coefficients `a1, b1, c1` (from the `x` coordinates) and `a2, b2, c2`
(from the `y` coordinates), and returns
`JxW[q] = w_q * ((a1+c1·η)(b2+c2·ξ) - (b1+c1·ξ)(a2+c2·η))`. -/
theorem quad4_jxw_bilinear (c : Quad4Calc) (e : Element2)
    (hwf : c.d_JxW.length = c.quad_weights.length)
    (ht : e.etype = c.keyType)
    (hpos : ∀ i < c.quad_weights.length, 0 < quad4J e (c.quad_points.getD i (0, 0))) :
    (∀ p : ℚ × ℚ, quad4J e p =
      ((1/4 : ℚ) * (-(e.pts 0).1 + (e.pts 1).1 + (e.pts 2).1 - (e.pts 3).1) +
          (1/4 : ℚ) * ((e.pts 0).1 - (e.pts 1).1 + (e.pts 2).1 - (e.pts 3).1) * p.2) *
        ((1/4 : ℚ) * (-(e.pts 0).2 - (e.pts 1).2 + (e.pts 2).2 + (e.pts 3).2) +
          (1/4 : ℚ) * ((e.pts 0).2 - (e.pts 1).2 + (e.pts 2).2 - (e.pts 3).2) * p.1) -
      ((1/4 : ℚ) * (-(e.pts 0).1 - (e.pts 1).1 + (e.pts 2).1 + (e.pts 3).1) +
          (1/4 : ℚ) * ((e.pts 0).1 - (e.pts 1).1 + (e.pts 2).1 - (e.pts 3).1) * p.1) *
        ((1/4 : ℚ) * (-(e.pts 0).2 + (e.pts 1).2 + (e.pts 2).2 - (e.pts 3).2) +
          (1/4 : ℚ) * ((e.pts 0).2 - (e.pts 1).2 + (e.pts 2).2 - (e.pts 3).2) * p.2)) ∧
    ∃ l, c.get_JxW e = some l ∧ l.length = c.quad_weights.length ∧
      ∀ q < l.length, l.getD q 0 =
        c.quad_weights.getD q 0 * quad4J e (c.quad_points.getD q (0, 0)) := by
  have hb : listOverwrite c.d_JxW c.quad_weights = c.quad_weights :=
    listOverwrite_eq_of_length _ _ hwf
  refine ⟨fun p => rfl, ?_⟩
  refine ⟨(List.range c.quad_weights.length).map fun i =>
    c.quad_weights.getD i 0 * quad4J e (c.quad_points.getD i (0, 0)), ?_, ?_, ?_⟩
  · exact (quad4_get_JxW_some c e _).mpr ⟨ht, by rw [hb]; exact hpos, by rw [hb]⟩
  · simp
  · intro q hq
    simp only [List.length_map, List.length_range] at hq
    rw [rangeMapGetD _ _ _ _ hq]

/-- Witness calculator for the Quad4 claim: the unit square with a
one-point rule at the reference centre. -/
def quad4CalcW : Quad4Calc :=
  { keyType := ElemType.quad4, quad_points := [(0, 0)], quad_weights := [4], d_JxW := [0] }

/-- Witness element for the Quad4 claim: the unit square. -/
def quad4ElemW : Element2 :=
  ⟨ElemType.quad4, fun n =>
    if n = 1 then (1, 0) else if n = 2 then (1, 1) else if n = 3 then (0, 1) else (0, 0)⟩

theorem quad4_jxw_bilinear_witness :
    (∀ p : ℚ × ℚ, quad4J quad4ElemW p =
      ((1/4 : ℚ) * (-(quad4ElemW.pts 0).1 + (quad4ElemW.pts 1).1 + (quad4ElemW.pts 2).1 - (quad4ElemW.pts 3).1) +
          (1/4 : ℚ) * ((quad4ElemW.pts 0).1 - (quad4ElemW.pts 1).1 + (quad4ElemW.pts 2).1 - (quad4ElemW.pts 3).1) * p.2) *
        ((1/4 : ℚ) * (-(quad4ElemW.pts 0).2 - (quad4ElemW.pts 1).2 + (quad4ElemW.pts 2).2 + (quad4ElemW.pts 3).2) +
          (1/4 : ℚ) * ((quad4ElemW.pts 0).2 - (quad4ElemW.pts 1).2 + (quad4ElemW.pts 2).2 - (quad4ElemW.pts 3).2) * p.1) -
      ((1/4 : ℚ) * (-(quad4ElemW.pts 0).1 - (quad4ElemW.pts 1).1 + (quad4ElemW.pts 2).1 + (quad4ElemW.pts 3).1) +
          (1/4 : ℚ) * ((quad4ElemW.pts 0).1 - (quad4ElemW.pts 1).1 + (quad4ElemW.pts 2).1 - (quad4ElemW.pts 3).1) * p.1) *
        ((1/4 : ℚ) * (-(quad4ElemW.pts 0).2 + (quad4ElemW.pts 1).2 + (quad4ElemW.pts 2).2 - (quad4ElemW.pts 3).2) +
          (1/4 : ℚ) * ((quad4ElemW.pts 0).2 - (quad4ElemW.pts 1).2 + (quad4ElemW.pts 2).2 - (quad4ElemW.pts 3).2) * p.2)) ∧
    ∃ l, quad4CalcW.get_JxW quad4ElemW = some l ∧
      l.length = quad4CalcW.quad_weights.length ∧
      ∀ q < l.length, l.getD q 0 = quad4CalcW.quad_weights.getD q 0 *
        quad4J quad4ElemW (quad4CalcW.quad_points.getD q (0, 0)) :=
  quad4_jxw_bilinear quad4CalcW quad4ElemW (by simp [quad4CalcW]) rfl
    (by intro i hi
        simp only [quad4CalcW, List.length_cons, List.length_nil] at hi
        interval_cases i
        norm_num [quad4J, quad4ElemW, quad4CalcW])

/-- C5: in every calculator variant, calling `get_JxW` on an element
whose `type()` differs from the element type stored in the key is a
fatal contract error (`none`), and under the precondition
`element.type() == key.element_type` the type-check branch never fires:
the call is exactly the body after the check. -/
theorem elem_type_check_contract :
    (∀ (c : Tri3Calc) (e : Element2),
      (e.etype ≠ c.keyType → c.get_JxW e = none) ∧
      (e.etype = c.keyType → c.get_JxW e = c.core e)) ∧
    (∀ (c : Quad4Calc) (e : Element2),
      (e.etype ≠ c.keyType → c.get_JxW e = none) ∧
      (e.etype = c.keyType → c.get_JxW e = c.core e)) ∧
    (∀ (c : Quad9Calc) (e : Element2),
      (e.etype ≠ c.keyType → c.get_JxW e = none) ∧
      (e.etype = c.keyType → c.get_JxW e = c.core e)) ∧
    (∀ (c : Tet4Calc) (e : Element3),
      (e.etype ≠ c.keyType → c.get_JxW e = none) ∧
      (e.etype = c.keyType → c.get_JxW e = c.core e)) ∧
    (∀ (c : LagrangeCalc) (e : ElementR),
      (e.etype ≠ c.keyType → c.get_JxW e = none) ∧
      (e.etype = c.keyType → c.get_JxW e = c.core e)) :=
  ⟨fun _ _ => ⟨fun h => if_neg h, fun h => if_pos h⟩,
   fun _ _ => ⟨fun h => if_neg h, fun h => if_pos h⟩,
   fun _ _ => ⟨fun h => if_neg h, fun h => if_pos h⟩,
   fun _ _ => ⟨fun h => if_neg h, fun h => if_pos h⟩,
   fun _ _ => ⟨fun h => if_neg h, fun h => if_pos h⟩⟩

/-- An element with the wrong type tag for the Tri3 witness calculator. -/
def quadTaggedElemW : Element2 := ⟨ElemType.quad4, fun _ => (0, 0)⟩

theorem elem_type_check_contract_witness :
    tri3CalcW.get_JxW quadTaggedElemW = none ∧
    tri3CalcW.get_JxW tri3ElemW = tri3CalcW.core tri3ElemW :=
  ⟨(elem_type_check_contract.1 tri3CalcW quadTaggedElemW).1 (by decide),
   (elem_type_check_contract.1 tri3CalcW tri3ElemW).2 rfl⟩

/-- C8: for the affine kernels Tri3 and Tet4 the ratio `jxw[q] / w_q`
is the same constant for every quadrature index `q` of the rule (the
Jacobian is evaluated once per element, independently of `q`). -/
theorem affine_ratio_constant :
    (∀ (c : Tri3Calc) (e : Element2) (l : List ℚ),
      c.d_JxW.length = c.quad_weights.length →
      (∀ w ∈ c.quad_weights, 0 < w) →
      c.get_JxW e = some l →
      ∃ K, ∀ q, ∀ _ : q < l.length,
        l.getD q 0 / c.quad_weights.getD q 0 = K) ∧
    (∀ (c : Tet4Calc) (e : Element3) (l : List ℚ),
      c.d_JxW.length = c.quad_weights.length →
      (∀ w ∈ c.quad_weights, 0 < w) →
      c.get_JxW e = some l →
      ∃ K, ∀ q, ∀ _ : q < l.length,
        l.getD q 0 / c.quad_weights.getD q 0 = K) := by
  constructor
  · intro c e l hwf hw hsome
    rw [tri3_get_JxW_some] at hsome
    obtain ⟨ht, hJ, rfl⟩ := hsome
    rw [listOverwrite_eq_of_length _ _ hwf]
    refine ⟨tri3J e, ?_⟩
    intro q hq
    simp only [List.length_map] at hq
    rw [List.getD_eq_getElem _ _ (by simpa using hq),
      List.getD_eq_getElem _ _ hq, List.getElem_map]
    exact mul_div_cancel_left₀ _ (ne_of_gt (hw _ (List.getElem_mem _)))
  · intro c e l hwf hw hsome
    rw [tet4_get_JxW_some] at hsome
    obtain ⟨ht, hJ, rfl⟩ := hsome
    rw [listOverwrite_eq_of_length _ _ hwf]
    refine ⟨tet4J e, ?_⟩
    intro q hq
    simp only [List.length_map] at hq
    rw [List.getD_eq_getElem _ _ (by simpa using hq),
      List.getD_eq_getElem _ _ hq, List.getElem_map]
    exact mul_div_cancel_left₀ _ (ne_of_gt (hw _ (List.getElem_mem _)))

/-- C6: in every calculator variant a computed `J <= 0` at any
quadrature point is fatal, so every value in a successfully returned
`JxW` sequence is strictly positive, given the rule's strictly positive
weights and the construction invariant on the buffer size. -/
theorem jxw_values_positive :
    (∀ (c : Tri3Calc) (e : Element2) (l : List ℚ),
      c.d_JxW.length = c.quad_weights.length →
      (∀ w ∈ c.quad_weights, 0 < w) →
      c.get_JxW e = some l → ∀ x ∈ l, 0 < x) ∧
    (∀ (c : Quad4Calc) (e : Element2) (l : List ℚ),
      c.d_JxW.length = c.quad_weights.length →
      (∀ w ∈ c.quad_weights, 0 < w) →
      c.get_JxW e = some l → ∀ x ∈ l, 0 < x) ∧
    (∀ (c : Quad9Calc) (e : Element2) (l : List ℚ),
      c.d_JxW.length = c.quad_weights.length →
      (∀ w ∈ c.quad_weights, 0 < w) →
      c.get_JxW e = some l → ∀ x ∈ l, 0 < x) ∧
    (∀ (c : Tet4Calc) (e : Element3) (l : List ℚ),
      c.d_JxW.length = c.quad_weights.length →
      (∀ w ∈ c.quad_weights, 0 < w) →
      c.get_JxW e = some l → ∀ x ∈ l, 0 < x) ∧
    (∀ (c : LagrangeCalc) (e : ElementR) (l : List ℝ),
      c.d_JxW.length = c.quad_weights.length →
      (∀ w ∈ c.quad_weights, 0 < w) →
      c.get_JxW e = some l → ∀ x ∈ l, 0 < x) := by
  refine ⟨?_, ?_, ?_, ?_, ?_⟩
  · intro c e l hwf hw hsome
    rw [tri3_get_JxW_some] at hsome
    obtain ⟨-, hJ, rfl⟩ := hsome
    rw [listOverwrite_eq_of_length _ _ hwf]
    intro x hx
    obtain ⟨w, hwmem, rfl⟩ := List.mem_map.mp hx
    exact mul_pos (hw w hwmem) hJ
  · intro c e l hwf hw hsome
    rw [quad4_get_JxW_some] at hsome
    obtain ⟨-, hpos, rfl⟩ := hsome
    rw [listOverwrite_eq_of_length _ _ hwf] at hpos ⊢
    intro x hx
    obtain ⟨i, hi, rfl⟩ := List.mem_map.mp hx
    have hi' : i < c.quad_weights.length := List.mem_range.mp hi
    have hmem : c.quad_weights.getD i 0 ∈ c.quad_weights := by
      rw [List.getD_eq_getElem _ _ hi']
      exact List.getElem_mem _
    exact mul_pos (hw _ hmem) (hpos i hi')
  · intro c e l hwf hw hsome
    rw [quad9_get_JxW_some] at hsome
    obtain ⟨-, hpos, rfl⟩ := hsome
    rw [listOverwrite_eq_of_length _ _ hwf] at hpos ⊢
    intro x hx
    obtain ⟨i, hi, rfl⟩ := List.mem_map.mp hx
    have hi' : i < c.quad_weights.length := List.mem_range.mp hi
    have hmem : c.quad_weights.getD i 0 ∈ c.quad_weights := by
      rw [List.getD_eq_getElem _ _ hi']
      exact List.getElem_mem _
    exact mul_pos (hw _ hmem) (hpos i hi')
  · intro c e l hwf hw hsome
    rw [tet4_get_JxW_some] at hsome
    obtain ⟨-, hJ, rfl⟩ := hsome
    rw [listOverwrite_eq_of_length _ _ hwf]
    intro x hx
    obtain ⟨w, hwmem, rfl⟩ := List.mem_map.mp hx
    exact mul_pos (hw w hwmem) hJ
  · intro c e l hwf hw hsome
    rw [lagrange_get_JxW_some] at hsome
    obtain ⟨-, hpos, rfl⟩ := hsome
    rw [listOverwrite_eq_of_length _ _ hwf] at hpos ⊢
    intro x hx
    obtain ⟨q, hq, rfl⟩ := List.mem_map.mp hx
    have hq' : q < c.quad_weights.length := List.mem_range.mp hq
    obtain ⟨J, hJ, hJpos⟩ := hpos q hq'
    have hmem : c.quad_weights.getD q 0 ∈ c.quad_weights := by
      rw [List.getD_eq_getElem _ _ hq']
      exact List.getElem_mem _
    rw [hJ, Option.getD_some]
    exact mul_pos (hw _ hmem) hJpos

/-- The concrete Tri3 call of the witnesses: `J = 6`, one weight `1/2`,
so the returned sequence is `[3]`. -/
theorem tri3W_some : tri3CalcW.get_JxW tri3ElemW = some [3] := by
  rw [tri3_get_JxW_some]
  refine ⟨rfl, by norm_num [tri3J, tri3ElemW], ?_⟩
  norm_num [listOverwrite, tri3CalcW, tri3ElemW, tri3J]

theorem jxw_values_positive_witness : ∀ x ∈ [(3 : ℚ)], 0 < x :=
  jxw_values_positive.1 tri3CalcW tri3ElemW [3] (by simp [tri3CalcW])
    (by norm_num [tri3CalcW]) tri3W_some

theorem affine_ratio_constant_witness :
    ∃ K, ∀ q, ∀ _ : q < [(3 : ℚ)].length,
      [(3 : ℚ)].getD q 0 / tri3CalcW.quad_weights.getD q 0 = K :=
  affine_ratio_constant.1 tri3CalcW tri3ElemW [3] (by simp [tri3CalcW])
    (by norm_num [tri3CalcW]) tri3W_some

/-- C7: `get_JxW` is a deterministic function of the key data and the
element's node coordinates.  For each variant, two calculators that
agree on everything except the prior contents of the `d_JxW` buffer
(both sized by the construction invariant) produce the same result,
because the buffer is fully overwritten from the immutable reference
weights before the per-point multiplications; consequently a repeated
call after a successful call returns the same sequence. -/
theorem jxw_deterministic :
    (∀ (c : Tri3Calc) (b : List ℚ) (e : Element2),
      c.d_JxW.length = c.quad_weights.length →
      b.length = c.quad_weights.length →
      ({ c with d_JxW := b } : Tri3Calc).get_JxW e = c.get_JxW e) ∧
    (∀ (c : Quad4Calc) (b : List ℚ) (e : Element2),
      c.d_JxW.length = c.quad_weights.length →
      b.length = c.quad_weights.length →
      ({ c with d_JxW := b } : Quad4Calc).get_JxW e = c.get_JxW e) ∧
    (∀ (c : Quad9Calc) (b : List ℚ) (e : Element2),
      c.d_JxW.length = c.quad_weights.length →
      b.length = c.quad_weights.length →
      ({ c with d_JxW := b } : Quad9Calc).get_JxW e = c.get_JxW e) ∧
    (∀ (c : Tet4Calc) (b : List ℚ) (e : Element3),
      c.d_JxW.length = c.quad_weights.length →
      b.length = c.quad_weights.length →
      ({ c with d_JxW := b } : Tet4Calc).get_JxW e = c.get_JxW e) ∧
    (∀ (c : LagrangeCalc) (b : List ℝ) (e : ElementR),
      c.d_JxW.length = c.quad_weights.length →
      b.length = c.quad_weights.length →
      ({ c with d_JxW := b } : LagrangeCalc).get_JxW e = c.get_JxW e) ∧
    (∀ (c : LagrangeCalc) (e : ElementR) (l : List ℝ) (c' : LagrangeCalc),
      c.d_JxW.length = c.quad_weights.length →
      c.step e = some (l, c') →
      c'.get_JxW e = c.get_JxW e) := by
  have hlag : ∀ (c : LagrangeCalc) (b : List ℝ) (e : ElementR),
      c.d_JxW.length = c.quad_weights.length →
      b.length = c.quad_weights.length →
      ({ c with d_JxW := b } : LagrangeCalc).get_JxW e = c.get_JxW e := by
    intro c b e h1 h2
    simp only [LagrangeCalc.get_JxW, LagrangeCalc.core, lagrangeJ, contravariant,
      listOverwrite_eq_of_length _ _ h1, listOverwrite_eq_of_length _ _ h2]
  refine ⟨?_, ?_, ?_, ?_, hlag, ?_⟩
  · intro c b e h1 h2
    simp only [Tri3Calc.get_JxW, Tri3Calc.core,
      listOverwrite_eq_of_length _ _ h1, listOverwrite_eq_of_length _ _ h2]
  · intro c b e h1 h2
    simp only [Quad4Calc.get_JxW, Quad4Calc.core,
      listOverwrite_eq_of_length _ _ h1, listOverwrite_eq_of_length _ _ h2]
  · intro c b e h1 h2
    simp only [Quad9Calc.get_JxW, Quad9Calc.core, quad9Jac,
      listOverwrite_eq_of_length _ _ h1, listOverwrite_eq_of_length _ _ h2]
  · intro c b e h1 h2
    simp only [Tet4Calc.get_JxW, Tet4Calc.core,
      listOverwrite_eq_of_length _ _ h1, listOverwrite_eq_of_length _ _ h2]
  · intro c e l c' hwf hstep
    unfold LagrangeCalc.step at hstep
    rw [Option.map_eq_some'] at hstep
    obtain ⟨l0, hsome, heq⟩ := hstep
    injection heq with h1 h2
    subst h1
    subst h2
    have hlen : l0.length = c.quad_weights.length := by
      rw [lagrange_get_JxW_some] at hsome
      obtain ⟨-, -, rfl⟩ := hsome
      simp [listOverwrite_length _ _ hwf]
    exact hlag c l0 e hwf hlen

theorem jxw_deterministic_witness :
    ({ tri3CalcW with d_JxW := [7] } : Tri3Calc).get_JxW tri3ElemW =
      tri3CalcW.get_JxW tri3ElemW :=
  jxw_deterministic.1 tri3CalcW [7] tri3ElemW (by simp [tri3CalcW]) (by simp [tri3CalcW])

/-- C1: for every element passing the type precondition whose map
determinant is positive (and computable) at every quadrature point, the
generic Lagrange `get_JxW` returns a sequence with
`JxW[q] = w_q * |detmap(ξ_q)|`, where `detmap` (here `lagrangeJ`) is the
determinant of the contravariant matrix
`F[i][j] = Σ_n X[n][i] · G[n][q][j]` when `dim = spacedim` and
`√det(FᵀF)` when `dim < spacedim` (the last two conjuncts unfold
`lagrangeJ` into exactly those two branches). -/
theorem lagrange_jxw_postcondition (c : LagrangeCalc) (e : ElementR)
    (hwf : c.d_JxW.length = c.quad_weights.length)
    (ht : e.etype = c.keyType)
    (hpos : ∀ q < c.quad_weights.length, ∃ J, lagrangeJ c e q = some J ∧ 0 < J) :
    ∃ l, c.get_JxW e = some l ∧ l.length = c.quad_weights.length ∧
      (∀ q, ∀ _ : q < l.length, ∀ J, lagrangeJ c e q = some J →
        l.getD q 0 = c.quad_weights.getD q 0 * |J|) ∧
      (c.dim = c.spacedim → ∀ q,
        lagrangeJ c e q = determinant c.dim fun i j => contravariant c e q i j) ∧
      (c.dim ≠ c.spacedim → ∀ q,
        lagrangeJ c e q = (determinant c.dim fun a b =>
          ∑ k ∈ Finset.range c.spacedim,
            contravariant c e q k a * contravariant c e q k b).map Real.sqrt) := by
  have hb : listOverwrite c.d_JxW c.quad_weights = c.quad_weights :=
    listOverwrite_eq_of_length _ _ hwf
  refine ⟨(List.range c.quad_weights.length).map fun q =>
      c.quad_weights.getD q 0 * (lagrangeJ c e q).getD 0, ?_, ?_, ?_, ?_, ?_⟩
  · exact (lagrange_get_JxW_some c e _).mpr ⟨ht, by rw [hb]; exact hpos, by rw [hb]⟩
  · simp
  · intro q hq J hJ
    simp only [List.length_map, List.length_range] at hq
    obtain ⟨J', hJ', hJp⟩ := hpos q hq
    have hJJ : J = J' := by
      rw [hJ] at hJ'
      exact Option.some.inj hJ'
    subst hJJ
    rw [rangeMapGetD _ _ _ _ hq, hJ, Option.getD_some, abs_of_pos hJp]
  · intro hds q
    unfold lagrangeJ
    rw [if_pos hds]
  · intro hds q
    unfold lagrangeJ
    rw [if_neg hds]

/-- Witness calculator for the generic Lagrange path: `dim = spacedim =
1`, a two-node line element, one quadrature point with weight `2`. -/
noncomputable def lagrangeCalcW : LagrangeCalc :=
  { dim := 1, spacedim := 1, keyType := ElemType.edge2, d_n_nodes := 2,
    quad_points := [fun _ => 0], quad_weights := [2],
    d_dphi := fun n _ _ => if n = 0 then -1 else 1, d_JxW := [0] }

/-- Witness element for the generic Lagrange path: nodes at coordinates
`0` and `1`. -/
noncomputable def lagrangeElemW : ElementR :=
  ⟨ElemType.edge2, fun n _ => (n : ℝ)⟩

/-- The witness Jacobian is `det F = 0·(-1) + 1·1 = 1`. -/
theorem lagrangeW_J : lagrangeJ lagrangeCalcW lagrangeElemW 0 = some 1 := by
  have h : lagrangeCalcW.dim = lagrangeCalcW.spacedim := rfl
  unfold lagrangeJ
  rw [if_pos h]
  show determinant 1 _ = some 1
  unfold determinant
  simp only [contravariant, lagrangeCalcW, lagrangeElemW, Finset.sum_range_succ,
    Finset.sum_range_zero]
  norm_num

theorem lagrange_jxw_postcondition_witness :
    ∃ l, lagrangeCalcW.get_JxW lagrangeElemW = some l ∧
      l.length = lagrangeCalcW.quad_weights.length ∧
      (∀ q, ∀ _ : q < l.length, ∀ J, lagrangeJ lagrangeCalcW lagrangeElemW q = some J →
        l.getD q 0 = lagrangeCalcW.quad_weights.getD q 0 * |J|) ∧
      (lagrangeCalcW.dim = lagrangeCalcW.spacedim → ∀ q,
        lagrangeJ lagrangeCalcW lagrangeElemW q =
          determinant lagrangeCalcW.dim fun i j =>
            contravariant lagrangeCalcW lagrangeElemW q i j) ∧
      (lagrangeCalcW.dim ≠ lagrangeCalcW.spacedim → ∀ q,
        lagrangeJ lagrangeCalcW lagrangeElemW q =
          (determinant lagrangeCalcW.dim fun a b =>
            ∑ k ∈ Finset.range lagrangeCalcW.spacedim,
              contravariant lagrangeCalcW lagrangeElemW q k a *
                contravariant lagrangeCalcW lagrangeElemW q k b).map Real.sqrt) :=
  lagrange_jxw_postcondition lagrangeCalcW lagrangeElemW (by simp [lagrangeCalcW]) rfl
    (by intro q hq
        simp only [lagrangeCalcW, List.length_cons, List.length_nil] at hq
        interval_cases q
        exact ⟨1, lagrangeW_J, one_pos⟩)

/-- C4: construction of the Quad9 calculator succeeds exactly for
tensor-product rules: there must be a `Q1` with `Q1 * Q1 = Q` (the
constructor computes `Q1 = round(√Q)`, the unique such value), and
quadrature point `q = j·Q1 + i` must equal `(p_i, p_j)` for the 1-D
point sequence read off the first `Q1` points; any rule violating either
condition is fatally rejected at construction. -/
theorem quad9_construct_tensor_product (ktype : ElemType) (pts : List (ℚ × ℚ))
    (ws : List ℚ) (shape shape_deriv : ℕ → ℚ → ℚ) :
    (quad9Construct ktype pts ws shape shape_deriv).isSome ↔
      ∃ Q1, Q1 * Q1 = pts.length ∧
        ∀ j < Q1, ∀ i < Q1,
          pts.getD (j * Q1 + i) (0, 0) =
            ((pts.getD i (0, 0)).1, (pts.getD j (0, 0)).1) := by
  unfold quad9Construct
  split_ifs with h
  · simp only [Option.isSome_some, true_iff]
    exact ⟨Nat.sqrt pts.length, h.1, h.2⟩
  · simp only [Option.isSome_none, Bool.false_eq_true, false_iff]
    rintro ⟨Q1, hQ, hT⟩
    apply h
    have hs : Nat.sqrt pts.length = Q1 := by rw [← hQ, Nat.sqrt_eq]
    exact ⟨by rw [hs, hQ], by rw [hs]; exact hT⟩

/-- Trivial shape-function provider for the Quad9 construction witness. -/
def quad9ShapeW : ℕ → ℚ → ℚ := fun _ _ => 0

theorem quad9_construct_tensor_product_witness :
    (quad9Construct ElemType.quad9 [(0, 0)] [4] quad9ShapeW quad9ShapeW).isSome ∧
    ¬(quad9Construct ElemType.quad9 [(0, 0), (1, 0)] [1, 1] quad9ShapeW quad9ShapeW).isSome := by
  constructor
  · rw [quad9_construct_tensor_product]
    refine ⟨1, by norm_num, ?_⟩
    intro j hj i hi
    interval_cases j
    interval_cases i
    norm_num
  · rw [quad9_construct_tensor_product]
    rintro ⟨Q1, hQ, -⟩
    have h2 : Q1 * Q1 = 2 := by simpa using hQ
    have h1 : Q1 ≤ 1 := by nlinarith
    interval_cases Q1 <;> omega

/-- C9: the `determinant` helper is specialised exactly for the 1×1,
2×2 and 3×3 sizes (with the cofactor expansions written in the source);
every other size takes the unspecialised fallback that unconditionally
fails; and for the six explicitly instantiated `(dim, spacedim)` pairs
the size at which the generic path invokes `determinant` is always
`dim ∈ {1, 2, 3}`, so the fallback is never invoked at run time. -/
theorem determinant_specialisations :
    (∀ A : ℕ → ℕ → ℝ, determinant 1 A = some (A 0 0)) ∧
    (∀ A : ℕ → ℕ → ℝ, determinant 2 A = some (A 0 0 * A 1 1 - A 0 1 * A 1 0)) ∧
    (∀ A : ℕ → ℕ → ℝ, determinant 3 A =
      some (A 0 0 * (A 1 1 * A 2 2 - A 1 2 * A 2 1) -
            A 1 0 * (A 0 1 * A 2 2 - A 0 2 * A 2 1) +
            A 2 0 * (A 0 1 * A 1 2 - A 0 2 * A 1 1))) ∧
    (∀ n, n ≠ 1 → n ≠ 2 → n ≠ 3 → ∀ A : ℕ → ℕ → ℝ, determinant n A = none) ∧
    (∀ p ∈ lagrangeInstantiations, ∀ (c : LagrangeCalc) (e : ElementR) (q : ℕ),
      c.dim = p.1 → c.spacedim = p.2 → (lagrangeJ c e q).isSome) := by
  refine ⟨fun A => rfl, fun A => rfl, fun A => rfl, ?_, ?_⟩
  · intro n h1 h2 h3 A
    match n with
    | 0 => rfl
    | 1 => exact absurd rfl h1
    | 2 => exact absurd rfl h2
    | 3 => exact absurd rfl h3
    | (m + 4) => rfl
  · intro p hp c e q hd hs
    unfold lagrangeJ
    fin_cases hp <;> rw [hd] <;> split_ifs <;>
      simp [determinant, Option.isSome_map]

theorem determinant_specialisations_witness :
    determinant 4 (fun _ _ => (0 : ℝ)) = none ∧
    (lagrangeJ lagrangeCalcW lagrangeElemW 0).isSome :=
  ⟨determinant_specialisations.2.2.2.1 4 (by decide) (by decide) (by decide) _,
   determinant_specialisations.2.2.2.2 (1, 1) (by decide) lagrangeCalcW lagrangeElemW 0
     rfl rfl⟩

/-- C10: a successful `get_JxW` call mutates only the internal `d_JxW`
buffer: the stored quadrature points, weights and (for the generic and
Quad9 paths) the precomputed shape tables are unchanged, and the
returned sequence has exactly `Q` entries, `Q` being the rule's number
of weights fixed at construction (via the buffer-size invariant). -/
theorem jxw_frame_effect :
    (∀ (c : LagrangeCalc) (e : ElementR) (l : List ℝ) (c' : LagrangeCalc),
      c.step e = some (l, c') →
      c'.dim = c.dim ∧ c'.spacedim = c.spacedim ∧ c'.keyType = c.keyType ∧
        c'.d_n_nodes = c.d_n_nodes ∧ c'.quad_points = c.quad_points ∧
        c'.quad_weights = c.quad_weights ∧ c'.d_dphi = c.d_dphi ∧ c'.d_JxW = l ∧
        (c.d_JxW.length = c.quad_weights.length →
          l.length = c.quad_weights.length)) ∧
    (∀ (c : Quad9Calc) (e : Element2) (l : List ℚ) (c' : Quad9Calc),
      c.step e = some (l, c') →
      c'.keyType = c.keyType ∧ c'.quad_points = c.quad_points ∧
        c'.quad_weights = c.quad_weights ∧
        c'.d_n_oned_q_points = c.d_n_oned_q_points ∧ c'.d_phi = c.d_phi ∧
        c'.d_dphi = c.d_dphi ∧ c'.d_JxW = l ∧
        (c.d_JxW.length = c.quad_weights.length →
          l.length = c.quad_weights.length)) := by
  constructor
  · intro c e l c' hstep
    unfold LagrangeCalc.step at hstep
    rw [Option.map_eq_some'] at hstep
    obtain ⟨l0, hsome, heq⟩ := hstep
    injection heq with h1 h2
    subst h1
    subst h2
    rw [lagrange_get_JxW_some] at hsome
    obtain ⟨-, -, rfl⟩ := hsome
    refine ⟨rfl, rfl, rfl, rfl, rfl, rfl, rfl, rfl, ?_⟩
    intro hwf
    simp [listOverwrite_length _ _ hwf]
  · intro c e l c' hstep
    unfold Quad9Calc.step at hstep
    rw [Option.map_eq_some'] at hstep
    obtain ⟨l0, hsome, heq⟩ := hstep
    injection heq with h1 h2
    subst h1
    subst h2
    rw [quad9_get_JxW_some] at hsome
    obtain ⟨-, -, rfl⟩ := hsome
    refine ⟨rfl, rfl, rfl, rfl, rfl, rfl, rfl, ?_⟩
    intro hwf
    simp [listOverwrite_length _ _ hwf]

/-- Witness Quad9 calculator: one quadrature point `(0, 0)`, weight `4`,
and 1-D tables that select node `(0, 1)` of the logical grid for the `x`
row and node `(1, 0)` for the `y` row. -/
def quad9CalcW : Quad9Calc :=
  { keyType := ElemType.quad9, quad_points := [(0, 0)], quad_weights := [4],
    d_JxW := [0], d_n_oned_q_points := 1,
    d_phi := fun a _ => if a = 0 then 1 else 0,
    d_dphi := fun a _ => if a = 1 then 1 else 0 }

/-- Witness Quad9 element: node 4 at `(1, 0)`, node 7 at `(0, 1)`, all
other nodes at the origin, giving `J = 1`. -/
def quad9ElemW : Element2 :=
  ⟨ElemType.quad9, fun n => if n = 4 then (1, 0) else if n = 7 then (0, 1) else (0, 0)⟩

/-- The concrete Quad9 call of the witnesses returns `[4]`. -/
theorem quad9W_some : quad9CalcW.get_JxW quad9ElemW = some [4] := by
  rw [quad9_get_JxW_some]
  have hJ : quad9Jac quad9CalcW quad9ElemW 0 = 1 := by
    unfold quad9Jac
    simp only [quad9CalcW, quad9ElemW, quad9NodeIndex, Finset.sum_range_succ,
      Finset.sum_range_zero]
    norm_num
  refine ⟨rfl, ?_, ?_⟩
  · intro q hq
    have : q = 0 := by
      simp only [quad9CalcW, listOverwrite, List.length_append, List.length_cons,
        List.length_nil, List.length_drop] at hq
      omega
    subst this
    rw [hJ]
    norm_num
  · have hb : listOverwrite quad9CalcW.d_JxW quad9CalcW.quad_weights =
        quad9CalcW.quad_weights := by
      simp [quad9CalcW, listOverwrite]
    rw [hb]
    show [(4 : ℚ)] = [0].map fun q => ([(4 : ℚ)]).getD q 0 * quad9Jac quad9CalcW quad9ElemW q
    rw [List.map_cons, List.map_nil, hJ]
    norm_num

theorem jxw_frame_effect_witness :
    ({ quad9CalcW with d_JxW := [4] } : Quad9Calc).keyType = quad9CalcW.keyType ∧
      ({ quad9CalcW with d_JxW := [4] } : Quad9Calc).quad_points = quad9CalcW.quad_points ∧
      ({ quad9CalcW with d_JxW := [4] } : Quad9Calc).quad_weights = quad9CalcW.quad_weights ∧
      ({ quad9CalcW with d_JxW := [4] } : Quad9Calc).d_n_oned_q_points =
        quad9CalcW.d_n_oned_q_points ∧
      ({ quad9CalcW with d_JxW := [4] } : Quad9Calc).d_phi = quad9CalcW.d_phi ∧
      ({ quad9CalcW with d_JxW := [4] } : Quad9Calc).d_dphi = quad9CalcW.d_dphi ∧
      ({ quad9CalcW with d_JxW := [4] } : Quad9Calc).d_JxW = [(4 : ℚ)] ∧
      (quad9CalcW.d_JxW.length = quad9CalcW.quad_weights.length →
        ([(4 : ℚ)]).length = quad9CalcW.quad_weights.length) :=
  jxw_frame_effect.2 quad9CalcW quad9ElemW [4] { quad9CalcW with d_JxW := [4] }
    (by unfold Quad9Calc.step
        rw [quad9W_some]
        rfl)
